import Mathlib

/-!
Shallow embedding of the event classifier / accumulator and the series
projector of `StaggerPoolGraph` (src/parser/monk/brewmaster/modules/
features/StaggerPoolGraph.js).

The accumulator state holds the buffers `_staggerEvents`, `_purifyEvents`,
`_hpEvents`, `_deathEvents` and the scalars `_lastHp`, `_lastMaxHp`.
Handlers `on_addstagger`, `on_removestagger`, `on_toPlayer_damage`,
`on_toPlayer_heal`, `on_toPlayer_death` mutate the state; `plot`
projects the buffers into render-ready series.  JavaScript exceptions
(the out-of-bounds read in `on_removestagger` when `_staggerEvents` is
empty) are modelled with `Except String`.
-/

namespace StaggerPool

/-- The identifier `SPELLS.PURIFYING_BREW.id` used to classify removals. -/
def PURIFYING_BREW_id : Nat := 119582

/-- An ability reference carried on a `StaggerRemove` trigger
(`event.trigger.ability`, with its `guid` field). -/
structure Ability where
  guid : Nat
  deriving Repr, DecidableEq

/-- The `trigger` reference on a `StaggerRemove` event; its `ability`
field may be absent (null / undefined in the source). -/
structure Trigger where
  ability : Option Ability
  deriving Repr, DecidableEq

/-- The input events recognized by the accumulator. -/
inductive Event where
  /-- `addstagger`: pool gain.  `newPooledDamage` is whatever the event
  carries (spread through by `{...event}`); absent on typical adds. -/
  | staggerAdd (timestamp : Nat) (newPooledDamage : Option Nat)
  /-- `removestagger`: pool reduction with the resulting pool level,
  the removed amount and the triggering-ability reference. -/
  | staggerRemove (timestamp : Nat) (newPooledDamage : Nat)
      (amount : Nat) (trigger : Trigger)
  /-- `toPlayer damage`: optional health / max-health snapshots. -/
  | damage (timestamp : Nat) (hitPoints : Option Nat)
      (maxHitPoints : Option Nat)
  /-- `toPlayer heal`: optional health / max-health snapshots. -/
  | heal (timestamp : Nat) (hitPoints : Option Nat)
      (maxHitPoints : Option Nat)
  /-- `toPlayer death`. -/
  | death (timestamp : Nat)
  deriving Repr, DecidableEq

/-- An element of `_staggerEvents`: the event's fields spread together
with the carried-forward health snapshot
(`{...event, hitPoints: this._lastHp, maxHitPoints: this._lastMaxHp}`). -/
structure StaggerRecord where
  timestamp : Nat
  /-- present on remove records, generally absent on add records -/
  newPooledDamage : Option Nat
  hitPoints : Nat
  maxHitPoints : Nat
  deriving Repr, DecidableEq

/-- An element of `_purifyEvents`: the removal's fields spread together
with `previousTimestamp`, the timestamp of the last element of
`_staggerEvents` at the moment of recording. -/
structure PurifyRecord where
  timestamp : Nat
  newPooledDamage : Nat
  amount : Nat
  previousTimestamp : Nat
  deriving Repr, DecidableEq

/-- An element of `_hpEvents`: a Damage/Heal event with whatever subset
of the snapshot fields it declares. -/
structure HpRecord where
  timestamp : Nat
  hitPoints : Option Nat
  maxHitPoints : Option Nat
  deriving Repr, DecidableEq

/-- The accumulator's state: the four buffers and the two carried
scalars of `StaggerPoolGraph`. -/
structure State where
  hpEvents : List HpRecord
  staggerEvents : List StaggerRecord
  deathEvents : List Nat
  purifyEvents : List PurifyRecord
  lastHp : Nat
  lastMaxHp : Nat
  deriving Repr, DecidableEq

/-- The fresh accumulator: empty buffers and zero scalars
(`_hpEvents = []`, ..., `_lastHp = 0`, `_lastMaxHp = 0`). -/
def initialState : State :=
  { hpEvents := [], staggerEvents := [], deathEvents := []
    purifyEvents := [], lastHp := 0, lastMaxHp := 0 }

/-- `this._lastHp = event.hitPoints ? event.hitPoints : this._lastHp`:
a missing or falsy (zero) value keeps the old scalar. -/
def truthyUpdate (old : Nat) (v : Option Nat) : Nat :=
  match v with
  | some n => if n = 0 then old else n
  | none => old

/-- `on_addstagger`: push the event onto `_staggerEvents` together with
the current health snapshot. -/
def on_addstagger (s : State) (timestamp : Nat)
    (newPooledDamage : Option Nat) : State :=
  { s with staggerEvents := s.staggerEvents ++
      [{ timestamp := timestamp, newPooledDamage := newPooledDamage
         hitPoints := s.lastHp, maxHitPoints := s.lastMaxHp }] }

/-- `on_removestagger`: when the trigger's ability is Purifying Brew,
push a purify record carrying the previous stagger event's timestamp,
then push the removal onto `_staggerEvents`.  When `_staggerEvents` is
empty on the purify path the source reads `.timestamp` of `undefined`,
a thrown TypeError, modelled as `Except.error`. -/
def on_removestagger (s : State) (timestamp newPooledDamage amount : Nat)
    (trigger : Trigger) : Except String State :=
  let staggerPush : State → State := fun st =>
    { st with staggerEvents := st.staggerEvents ++
        [{ timestamp := timestamp, newPooledDamage := some newPooledDamage
           hitPoints := st.lastHp, maxHitPoints := st.lastMaxHp }] }
  match trigger.ability with
  | some ab =>
    if ab.guid = PURIFYING_BREW_id then
      match s.staggerEvents.getLast? with
      | some prev =>
        Except.ok <| staggerPush
          { s with purifyEvents := s.purifyEvents ++
              [{ timestamp := timestamp, newPooledDamage := newPooledDamage
                 amount := amount, previousTimestamp := prev.timestamp }] }
      | none =>
        Except.error "TypeError: cannot read timestamp of undefined"
    else
      Except.ok (staggerPush s)
  | none => Except.ok (staggerPush s)

/-- `on_toPlayer_damage`: push onto `_hpEvents` unconditionally, then
update the scalars by JavaScript truthiness. -/
def on_toPlayer_damage (s : State) (timestamp : Nat)
    (hitPoints maxHitPoints : Option Nat) : State :=
  { s with
    hpEvents := s.hpEvents ++
      [{ timestamp := timestamp, hitPoints := hitPoints,
         maxHitPoints := maxHitPoints }],
    lastHp := truthyUpdate s.lastHp hitPoints,
    lastMaxHp := truthyUpdate s.lastMaxHp maxHitPoints }

/-- `on_toPlayer_heal`: identical body to `on_toPlayer_damage`. -/
def on_toPlayer_heal (s : State) (timestamp : Nat)
    (hitPoints maxHitPoints : Option Nat) : State :=
  { s with
    hpEvents := s.hpEvents ++
      [{ timestamp := timestamp, hitPoints := hitPoints,
         maxHitPoints := maxHitPoints }],
    lastHp := truthyUpdate s.lastHp hitPoints,
    lastMaxHp := truthyUpdate s.lastMaxHp maxHitPoints }

/-- `on_toPlayer_death`: push the event onto `_deathEvents`. -/
def on_toPlayer_death (s : State) (timestamp : Nat) : State :=
  { s with deathEvents := s.deathEvents ++ [timestamp] }

/-- Dispatch one event to its handler. -/
def ingest (s : State) : Event → Except String State
  | Event.staggerAdd ts npd => Except.ok (on_addstagger s ts npd)
  | Event.staggerRemove ts npd amount trigger =>
      on_removestagger s ts npd amount trigger
  | Event.damage ts hp mhp => Except.ok (on_toPlayer_damage s ts hp mhp)
  | Event.heal ts hp mhp => Except.ok (on_toPlayer_heal s ts hp mhp)
  | Event.death ts => Except.ok (on_toPlayer_death s ts)

/-- Feed a stream of events, one at a time, in order; a thrown
exception aborts the run. -/
def runEvents : List Event → State → Except String State
  | [], s => Except.ok s
  | e :: es, s =>
    match ingest s e with
    | Except.ok s' => runEvents es s'
    | Except.error msg => Except.error msg

/-- A point of the pool series:
`{x: timestamp, y: newPooledDamage, hp: hitPoints, maxHp: maxHitPoints}`. -/
structure PoolPoint where
  x : Nat
  y : Option Nat
  hp : Nat
  maxHp : Nat
  deriving Repr, DecidableEq

/-- A purify marker: `{x: previousTimestamp, y: newPooledDamage + amount,
amount}`. -/
structure PurifyPoint where
  x : Nat
  y : Nat
  amount : Nat
  deriving Repr, DecidableEq

/-- A point of the health or max-health series: `{x: timestamp, y: ...}`. -/
structure HpPoint where
  x : Nat
  y : Nat
  deriving Repr, DecidableEq

/-- The five projected sequences produced by `plot`. -/
structure Series where
  stagger : List PoolPoint
  purifies : List PurifyPoint
  hp : List HpPoint
  maxHp : List HpPoint
  deaths : List Nat
  deriving Repr, DecidableEq

/-- The series projector `plot`: maps/filters over the final buffers. -/
def plotSeries (s : State) : Series :=
  { stagger := s.staggerEvents.map fun r =>
      { x := r.timestamp, y := r.newPooledDamage
        hp := r.hitPoints, maxHp := r.maxHitPoints }
    purifies := s.purifyEvents.map fun p =>
      { x := p.previousTimestamp, y := p.newPooledDamage + p.amount
        amount := p.amount }
    hp := (s.hpEvents.filter fun e => e.hitPoints ≠ none).map fun e =>
      { x := e.timestamp, y := e.hitPoints.getD 0 }
    maxHp := (s.hpEvents.filter fun e => e.maxHitPoints ≠ none).map fun e =>
      { x := e.timestamp, y := e.maxHitPoints.getD 0 }
    deaths := s.deathEvents.map fun ts => ts }

/-- The `plot` method as invoked on the accumulator object: it reads the
buffers and returns the series together with the (untouched) state of
the object after the call. -/
def plot (s : State) : Series × State := (plotSeries s, s)


/-! ### Helper lemmas about the handlers -/

/-- On the purify path with a non-empty history, `on_removestagger`
appends the purify record (referencing the last recorded stagger
event's timestamp) and then the removal record. -/
theorem removestagger_purify_eq (s : State) (ts npd amount : Nat)
    (trigger : Trigger) (ab : Ability) (prev : StaggerRecord)
    (hab : trigger.ability = some ab) (hg : ab.guid = PURIFYING_BREW_id)
    (hprev : s.staggerEvents.getLast? = some prev) :
    on_removestagger s ts npd amount trigger = Except.ok
      { s with
        purifyEvents := s.purifyEvents ++
          [{ timestamp := ts, newPooledDamage := npd, amount := amount,
             previousTimestamp := prev.timestamp }],
        staggerEvents := s.staggerEvents ++
          [{ timestamp := ts, newPooledDamage := some npd,
             hitPoints := s.lastHp, maxHitPoints := s.lastMaxHp }] } := by
  simp [on_removestagger, hab, hg, hprev]

/-- When the trigger carries no purifying ability, `on_removestagger`
appends only the removal record. -/
theorem removestagger_nonpurify_eq (s : State) (ts npd amount : Nat)
    (trigger : Trigger)
    (hng : ∀ ab, trigger.ability = some ab → ab.guid ≠ PURIFYING_BREW_id) :
    on_removestagger s ts npd amount trigger = Except.ok
      { s with
        staggerEvents := s.staggerEvents ++
          [{ timestamp := ts, newPooledDamage := some npd,
             hitPoints := s.lastHp, maxHitPoints := s.lastMaxHp }] } := by
  cases htr : trigger.ability with
  | none => simp [on_removestagger, htr]
  | some ab => simp [on_removestagger, htr, hng ab htr]

/-- On the purify path with an empty history, `on_removestagger`
throws (reads a field of `undefined`). -/
theorem removestagger_empty_eq (s : State) (ts npd amount : Nat)
    (trigger : Trigger) (ab : Ability)
    (hab : trigger.ability = some ab) (hg : ab.guid = PURIFYING_BREW_id)
    (hempty : s.staggerEvents = []) :
    on_removestagger s ts npd amount trigger =
      Except.error "TypeError: cannot read timestamp of undefined" := by
  simp [on_removestagger, hab, hg, hempty]

/-- Everything a single accepted ingestion step guarantees about the
stagger and purify buffers: `staggerEvents` only grows, the appended
records carry the current scalars, the scalars are untouched by stagger
handlers, and any new purify record references a timestamp of a record
already in `staggerEvents`. -/
theorem ingest_ok_spec (s s' : State) (e : Event)
    (h : ingest s e = Except.ok s') :
    (∃ tail, s'.staggerEvents = s.staggerEvents ++ tail ∧
       ∀ r ∈ tail, r.hitPoints = s.lastHp ∧ r.maxHitPoints = s.lastMaxHp) ∧
    (s'.purifyEvents = s.purifyEvents ∨
       ∃ p, s'.purifyEvents = s.purifyEvents ++ [p] ∧
         ∃ r ∈ s.staggerEvents, r.timestamp = p.previousTimestamp) := by
  cases e with
  | staggerAdd ts npd =>
    simp only [ingest, Except.ok.injEq] at h
    subst h
    refine ⟨⟨_, rfl, ?_⟩, Or.inl rfl⟩
    simp [on_addstagger]
  | staggerRemove ts npd amount trigger =>
    simp only [ingest] at h
    cases htr : trigger.ability with
    | none =>
      rw [removestagger_nonpurify_eq s ts npd amount trigger
        (by simp [htr])] at h
      cases h
      exact ⟨⟨_, rfl, by simp⟩, Or.inl rfl⟩
    | some ab =>
      by_cases hg : ab.guid = PURIFYING_BREW_id
      · cases hprev : s.staggerEvents.getLast? with
        | none =>
          rw [removestagger_empty_eq s ts npd amount trigger ab htr hg
            (List.getLast?_eq_none_iff.mp hprev)] at h
          exact absurd h (by simp)
        | some prev =>
          rw [removestagger_purify_eq s ts npd amount trigger ab prev
            htr hg hprev] at h
          cases h
          refine ⟨⟨_, rfl, by simp⟩, Or.inr ⟨_, rfl, prev, ?_, rfl⟩⟩
          exact List.mem_of_mem_getLast? hprev
      · rw [removestagger_nonpurify_eq s ts npd amount trigger
          (by intro ab' hab'; rw [htr] at hab'; cases hab'; exact hg)] at h
        cases h
        exact ⟨⟨_, rfl, by simp⟩, Or.inl rfl⟩
  | damage ts hp mhp =>
    simp only [ingest, Except.ok.injEq] at h
    subst h
    exact ⟨⟨[], by simp [on_toPlayer_damage], by simp⟩, Or.inl rfl⟩
  | heal ts hp mhp =>
    simp only [ingest, Except.ok.injEq] at h
    subst h
    exact ⟨⟨[], by simp [on_toPlayer_heal], by simp⟩, Or.inl rfl⟩
  | death ts =>
    simp only [ingest, Except.ok.injEq] at h
    subst h
    exact ⟨⟨[], by simp [on_toPlayer_death], by simp⟩, Or.inl rfl⟩

/-! ### Run-level lemmas -/

/-- A run that accepts every event preserves any invariant preserved by
single steps. -/
theorem runEvents_inv {P : State → Prop}
    (step : ∀ s e s', ingest s e = Except.ok s' → P s → P s') :
    ∀ (es : List Event) (s s' : State),
      runEvents es s = Except.ok s' → P s → P s' := by
  intro es
  induction es with
  | nil =>
    intro s s' h hp
    simp only [runEvents, Except.ok.injEq] at h
    exact h ▸ hp
  | cons e es ih =>
    intro s s' h hp
    rw [runEvents] at h
    split at h
    · exact ih _ _ h (step _ _ _ (by assumption) hp)
    · exact absurd h (by simp)

/-- Over a whole accepted run, `staggerEvents` only grows at the end. -/
theorem runEvents_staggerEvents_extend :
    ∀ (es : List Event) (s s' : State), runEvents es s = Except.ok s' →
      ∃ tail, s'.staggerEvents = s.staggerEvents ++ tail := by
  intro es
  induction es with
  | nil =>
    intro s s' h
    simp only [runEvents, Except.ok.injEq] at h
    exact ⟨[], by simp [h]⟩
  | cons e es ih =>
    intro s s' h
    rw [runEvents] at h
    split at h
    case _ s₁ hstep =>
      obtain ⟨t₂, ht₂⟩ := ih _ _ h
      obtain ⟨⟨t₁, ht₁, _⟩, _⟩ := ingest_ok_spec _ _ _ hstep
      exact ⟨t₁ ++ t₂, by rw [ht₂, ht₁, List.append_assoc]⟩
    case _ => exact absurd h (by simp)

/-- Predicate: is this event one of the two stagger mutations? -/
def isStaggerEvent : Event → Bool
  | Event.staggerAdd _ _ => true
  | Event.staggerRemove _ _ _ _ => true
  | Event.damage _ _ _ => false
  | Event.heal _ _ _ => false
  | Event.death _ => false

/-- Feeding only non-stagger events never throws and leaves the
stagger and purify buffers exactly as they were. -/
theorem runEvents_no_stagger :
    ∀ (es : List Event) (s : State),
      (∀ e ∈ es, isStaggerEvent e = false) →
      ∃ s', runEvents es s = Except.ok s' ∧
        s'.staggerEvents = s.staggerEvents ∧
        s'.purifyEvents = s.purifyEvents := by
  intro es
  induction es with
  | nil => exact fun s _ => ⟨s, rfl, rfl, rfl⟩
  | cons e es ih =>
    intro s hns
    have he : isStaggerEvent e = false := hns e (List.mem_cons_self e es)
    have hrest : ∀ e ∈ es, isStaggerEvent e = false :=
      fun e he => hns e (List.mem_cons_of_mem _ he)
    cases e with
    | staggerAdd ts npd => exact absurd he (by simp [isStaggerEvent])
    | staggerRemove ts npd amount trigger =>
      exact absurd he (by simp [isStaggerEvent])
    | damage ts hp mhp =>
      obtain ⟨s', hrun, hst, hpu⟩ := ih (on_toPlayer_damage s ts hp mhp) hrest
      exact ⟨s', by rw [runEvents]; simpa [ingest] using hrun,
        by simpa [on_toPlayer_damage] using hst,
        by simpa [on_toPlayer_damage] using hpu⟩
    | heal ts hp mhp =>
      obtain ⟨s', hrun, hst, hpu⟩ := ih (on_toPlayer_heal s ts hp mhp) hrest
      exact ⟨s', by rw [runEvents]; simpa [ingest] using hrun,
        by simpa [on_toPlayer_heal] using hst,
        by simpa [on_toPlayer_heal] using hpu⟩
    | death ts =>
      obtain ⟨s', hrun, hst, hpu⟩ := ih (on_toPlayer_death s ts) hrest
      exact ⟨s', by rw [runEvents]; simpa [ingest] using hrun,
        by simpa [on_toPlayer_death] using hst,
        by simpa [on_toPlayer_death] using hpu⟩

/-- Splitting a list by a decidable predicate preserves its length. -/
theorem length_filter_partition {α : Type} (p : α → Bool) (l : List α) :
    (l.filter p).length + (l.filter fun a => !(p a)).length = l.length := by
  induction l with
  | nil => rfl
  | cons a l ih =>
    cases h : p a <;> simp [List.filter_cons, h, ← ih] <;> omega

/-! ### Concrete material for witnesses -/

/-- A trigger whose ability is Purifying Brew. -/
def purifyTrigger : Trigger := { ability := some { guid := PURIFYING_BREW_id } }

/-- One stagger gain ingested into the fresh accumulator. -/
def demoState : State := on_addstagger initialState 100 none

/-- The worked scenario of the specification: add at 100, damage at 150
with snapshots 80/100, purifying removal at 200 leaving 5 after
removing 15, death at 250. -/
def demoStream : List Event :=
  [Event.staggerAdd 100 none,
   Event.damage 150 (some 80) (some 100),
   Event.staggerRemove 200 5 15 purifyTrigger,
   Event.death 250]

/-- The accumulator state after feeding `demoStream`. -/
def demoFinal : State :=
  { hpEvents := [{ timestamp := 150, hitPoints := some 80,
                   maxHitPoints := some 100 }],
    staggerEvents :=
      [{ timestamp := 100, newPooledDamage := none,
         hitPoints := 0, maxHitPoints := 0 },
       { timestamp := 200, newPooledDamage := some 5,
         hitPoints := 80, maxHitPoints := 100 }],
    deathEvents := [250],
    purifyEvents :=
      [{ timestamp := 200, newPooledDamage := 5, amount := 15,
         previousTimestamp := 100 }],
    lastHp := 80,
    lastMaxHp := 100 }

/-- Feeding the worked scenario produces `demoFinal`. -/
theorem demoStream_run : runEvents demoStream initialState = Except.ok demoFinal := by
  rfl

/-! ### The claims -/

/-- C1: for every ingested StaggerRemove whose trigger carries the
purification ability identifier, with `staggerEvents` non-empty at that
moment, exactly one purify record is appended to `purifyEvents` before
the removal is appended to `staggerEvents`, and its
`previousTimestamp` — hence the projected purify marker's x — equals
the timestamp of the last element of `staggerEvents` at recording time,
not the removal's own timestamp. -/
theorem C1_purify_retimed_to_previous_peak (s : State)
    (ts npd amount : Nat) (trigger : Trigger) (ab : Ability)
    (hab : trigger.ability = some ab) (hg : ab.guid = PURIFYING_BREW_id)
    (hne : s.staggerEvents ≠ []) :
    ∃ prev s', s.staggerEvents.getLast? = some prev ∧
      on_removestagger s ts npd amount trigger = Except.ok s' ∧
      s'.purifyEvents = s.purifyEvents ++
        [{ timestamp := ts, newPooledDamage := npd, amount := amount,
           previousTimestamp := prev.timestamp }] ∧
      s'.staggerEvents = s.staggerEvents ++
        [{ timestamp := ts, newPooledDamage := some npd,
           hitPoints := s.lastHp, maxHitPoints := s.lastMaxHp }] ∧
      (plotSeries s').purifies = (plotSeries s).purifies ++
        [{ x := prev.timestamp, y := npd + amount, amount := amount }] := by
  cases hprev : s.staggerEvents.getLast? with
  | none => exact absurd (List.getLast?_eq_none_iff.mp hprev) hne
  | some prev =>
    refine ⟨prev, _, rfl,
      removestagger_purify_eq s ts npd amount trigger ab prev hab hg hprev,
      rfl, rfl, ?_⟩
    simp [plotSeries]

/-- C1 witness: instantiated on one recorded stagger gain and the
scenario's purifying removal. -/
theorem C1_purify_retimed_to_previous_peak_witness :
    ∃ prev s', demoState.staggerEvents.getLast? = some prev ∧
      on_removestagger demoState 200 5 15 purifyTrigger = Except.ok s' ∧
      s'.purifyEvents = demoState.purifyEvents ++
        [{ timestamp := 200, newPooledDamage := 5, amount := 15,
           previousTimestamp := prev.timestamp }] ∧
      s'.staggerEvents = demoState.staggerEvents ++
        [{ timestamp := 200, newPooledDamage := some 5,
           hitPoints := demoState.lastHp,
           maxHitPoints := demoState.lastMaxHp }] ∧
      (plotSeries s').purifies = (plotSeries demoState).purifies ++
        [{ x := prev.timestamp, y := 5 + 15, amount := 15 }] :=
  C1_purify_retimed_to_previous_peak demoState 200 5 15 purifyTrigger
    { guid := PURIFYING_BREW_id } rfl rfl (by decide)

/-- C2: every projected purify marker satisfies
`y = newPooledDamage + amount` for its purify record, so the
reconstructed pre-purify level minus the purified amount is the
recorded post-purify level. -/
theorem C2_purify_marker_additive_reconstruction (s : State)
    (pt : PurifyPoint) (h : pt ∈ (plotSeries s).purifies) :
    ∃ p ∈ s.purifyEvents, pt.x = p.previousTimestamp ∧
      pt.amount = p.amount ∧ pt.y = p.newPooledDamage + p.amount ∧
      pt.y - p.amount = p.newPooledDamage := by
  simp only [plotSeries, List.mem_map] at h
  obtain ⟨p, hp, hpt⟩ := h
  subst hpt
  exact ⟨p, hp, rfl, rfl, rfl, by simp⟩

/-- C2 witness: instantiated on the scenario's purify marker. -/
theorem C2_purify_marker_additive_reconstruction_witness :
    ∃ p ∈ demoFinal.purifyEvents,
      ({ x := 100, y := 20, amount := 15 } : PurifyPoint).x =
        p.previousTimestamp ∧
      ({ x := 100, y := 20, amount := 15 } : PurifyPoint).amount =
        p.amount ∧
      ({ x := 100, y := 20, amount := 15 } : PurifyPoint).y =
        p.newPooledDamage + p.amount ∧
      ({ x := 100, y := 20, amount := 15 } : PurifyPoint).y - p.amount =
        p.newPooledDamage :=
  C2_purify_marker_additive_reconstruction demoFinal
    { x := 100, y := 20, amount := 15 } (by decide)

/-- C3: a purification-triggering StaggerRemove ingested while
`staggerEvents` is empty fails (throws) and records no purify; and in
every state reached by an accepted run from the fresh accumulator,
every purify record's `previousTimestamp` is the timestamp of an
element already present in `staggerEvents`. -/
theorem C3_purify_requires_prior_stagger :
    (∀ (s : State) (ts npd amount : Nat) (trigger : Trigger)
      (ab : Ability), trigger.ability = some ab →
      ab.guid = PURIFYING_BREW_id → s.staggerEvents = [] →
      on_removestagger s ts npd amount trigger =
        Except.error "TypeError: cannot read timestamp of undefined") ∧
    (∀ (es : List Event) (s : State),
      runEvents es initialState = Except.ok s →
      ∀ p ∈ s.purifyEvents, ∃ r ∈ s.staggerEvents,
        r.timestamp = p.previousTimestamp) := by
  constructor
  · exact fun s ts npd amount trigger ab hab hg he =>
      removestagger_empty_eq s ts npd amount trigger ab hab hg he
  · intro es s hrun
    refine @runEvents_inv
      (fun st => ∀ p ∈ st.purifyEvents, ∃ r ∈ st.staggerEvents,
        r.timestamp = p.previousTimestamp) ?_ es initialState s hrun ?_
    · intro s₀ e s₁ hstep hinv p hp
      obtain ⟨⟨tail, hst, _⟩, hpu⟩ := ingest_ok_spec _ _ _ hstep
      cases hpu with
      | inl heq =>
        rw [heq] at hp
        obtain ⟨r, hr, hrt⟩ := hinv p hp
        exact ⟨r, by rw [hst]; exact List.mem_append_left _ hr, hrt⟩
      | inr hex =>
        obtain ⟨q, hq, r, hr, hrt⟩ := hex
        rw [hq, List.mem_append] at hp
        cases hp with
        | inl hp =>
          obtain ⟨r', hr', hrt'⟩ := hinv p hp
          exact ⟨r', by rw [hst]; exact List.mem_append_left _ hr', hrt'⟩
        | inr hp =>
          have hpq : p = q := by simpa using hp
          subst hpq
          exact ⟨r, by rw [hst]; exact List.mem_append_left _ hr, hrt⟩
    · intro p hp
      simp [initialState] at hp

/-- C3 witness: the throw on the fresh accumulator, and the invariant
evaluated on the scenario's one purify record. -/
theorem C3_purify_requires_prior_stagger_witness :
    on_removestagger initialState 200 5 15 purifyTrigger =
      Except.error "TypeError: cannot read timestamp of undefined" ∧
    ∃ r ∈ demoFinal.staggerEvents,
      r.timestamp = (⟨200, 5, 15, 100⟩ : PurifyRecord).previousTimestamp :=
  ⟨C3_purify_requires_prior_stagger.1 initialState 200 5 15 purifyTrigger
      { guid := PURIFYING_BREW_id } rfl rfl rfl,
   C3_purify_requires_prior_stagger.2 demoStream demoFinal demoStream_run
      (⟨200, 5, 15, 100⟩ : PurifyRecord) (by decide)⟩

/-- C4: `staggerEvents` is append-only in stream order — each accepted
ingestion extends it at the end (a whole accepted run likewise), and
every appended record carries the `lastHp` / `lastMaxHp` scalars as
they stood when it was appended. -/
theorem C4_staggerEvents_append_only_snapshot :
    (∀ (s : State) (e : Event) (s' : State),
      ingest s e = Except.ok s' →
      ∃ tail, s'.staggerEvents = s.staggerEvents ++ tail ∧
        ∀ r ∈ tail, r.hitPoints = s.lastHp ∧
          r.maxHitPoints = s.lastMaxHp) ∧
    (∀ (es : List Event) (s s' : State),
      runEvents es s = Except.ok s' →
      ∃ tail, s'.staggerEvents = s.staggerEvents ++ tail) :=
  ⟨fun s e s' h => (ingest_ok_spec s s' e h).1,
   runEvents_staggerEvents_extend⟩

/-- C4 witness: one gain appended to the fresh accumulator, and the
whole scenario run. -/
theorem C4_staggerEvents_append_only_snapshot_witness :
    (∃ tail, demoState.staggerEvents = initialState.staggerEvents ++ tail ∧
      ∀ r ∈ tail, r.hitPoints = initialState.lastHp ∧
        r.maxHitPoints = initialState.lastMaxHp) ∧
    (∃ tail, demoFinal.staggerEvents = initialState.staggerEvents ++ tail) :=
  ⟨C4_staggerEvents_append_only_snapshot.1 initialState
      (Event.staggerAdd 100 none) demoState rfl,
   C4_staggerEvents_append_only_snapshot.2 demoStream initialState
      demoFinal demoStream_run⟩

/-- C5: on a Damage or Heal ingestion, `lastHp` becomes
`event.hitPoints` only when that field is present and non-zero; a
missing or zero value leaves it unchanged, and likewise for
`lastMaxHp` and `event.maxHitPoints`. -/
theorem C5_truthy_scalar_update (s : State) (ts : Nat)
    (hp mhp : Option Nat) (v : Nat) (hv : v ≠ 0) :
    ((hp = none ∨ hp = some 0) →
      (on_toPlayer_damage s ts hp mhp).lastHp = s.lastHp ∧
      (on_toPlayer_heal s ts hp mhp).lastHp = s.lastHp) ∧
    ((on_toPlayer_damage s ts (some v) mhp).lastHp = v ∧
     (on_toPlayer_heal s ts (some v) mhp).lastHp = v) ∧
    ((mhp = none ∨ mhp = some 0) →
      (on_toPlayer_damage s ts hp mhp).lastMaxHp = s.lastMaxHp ∧
      (on_toPlayer_heal s ts hp mhp).lastMaxHp = s.lastMaxHp) ∧
    ((on_toPlayer_damage s ts hp (some v)).lastMaxHp = v ∧
     (on_toPlayer_heal s ts hp (some v)).lastMaxHp = v) := by
  refine ⟨?_, ?_, ?_, ?_⟩
  · rintro (rfl | rfl) <;>
      simp [on_toPlayer_damage, on_toPlayer_heal, truthyUpdate]
  · simp [on_toPlayer_damage, on_toPlayer_heal, truthyUpdate, hv]
  · rintro (rfl | rfl) <;>
      simp [on_toPlayer_damage, on_toPlayer_heal, truthyUpdate]
  · simp [on_toPlayer_damage, on_toPlayer_heal, truthyUpdate, hv]

/-- C5 witness: a zero hitPoints snapshot and an absent maxHitPoints
leave the scalars of the scenario's final state unchanged, while
non-zero snapshots overwrite them. -/
theorem C5_truthy_scalar_update_witness :
    ((on_toPlayer_damage demoFinal 300 (some 0) none).lastHp =
        demoFinal.lastHp ∧
      (on_toPlayer_heal demoFinal 300 (some 0) none).lastHp =
        demoFinal.lastHp) ∧
    ((on_toPlayer_damage demoFinal 300 (some 90) none).lastHp = 90 ∧
     (on_toPlayer_heal demoFinal 300 (some 90) none).lastHp = 90) ∧
    ((on_toPlayer_damage demoFinal 300 (some 0) none).lastMaxHp =
        demoFinal.lastMaxHp ∧
      (on_toPlayer_heal demoFinal 300 (some 0) none).lastMaxHp =
        demoFinal.lastMaxHp) ∧
    ((on_toPlayer_damage demoFinal 300 (some 0) (some 90)).lastMaxHp = 90 ∧
     (on_toPlayer_heal demoFinal 300 (some 0) (some 90)).lastMaxHp = 90) :=
  have h := C5_truthy_scalar_update demoFinal 300 (some 0) none 90
    (by decide)
  ⟨h.1 (Or.inr rfl), h.2.1, h.2.2.1 (Or.inl rfl), h.2.2.2⟩

/-- C6 counterexample: a purification-triggering StaggerRemove ingested
while `staggerEvents` is empty raises an error and appends nothing, so
it is not the case that every ingested StaggerRemove appends exactly
one stagger record without error. -/
theorem C6_remove_counterexample :
    initialState.staggerEvents = [] ∧
    ingest initialState (Event.staggerRemove 200 5 15 purifyTrigger) =
      Except.error "TypeError: cannot read timestamp of undefined" :=
  ⟨rfl, rfl⟩

/-- C6 (amended): on every ingested StaggerRemove — provided
`staggerEvents` is non-empty whenever the trigger carries the
purification ability identifier — a purify record is appended iff the
trigger carries an ability whose identifier equals the purification
ability's, and in all such cases (including a non-purification ability
or no ability at all) exactly one stagger record for the removal is
appended and no error is raised. -/
theorem C6_remove_always_appends_removal (s : State)
    (ts npd amount : Nat) (trigger : Trigger)
    (hguard : (∃ ab, trigger.ability = some ab ∧
        ab.guid = PURIFYING_BREW_id) → s.staggerEvents ≠ []) :
    ∃ s', on_removestagger s ts npd amount trigger = Except.ok s' ∧
      s'.staggerEvents = s.staggerEvents ++
        [{ timestamp := ts, newPooledDamage := some npd,
           hitPoints := s.lastHp, maxHitPoints := s.lastMaxHp }] ∧
      ((∃ ab, trigger.ability = some ab ∧
          ab.guid = PURIFYING_BREW_id) →
        ∃ p, s'.purifyEvents = s.purifyEvents ++ [p]) ∧
      ((∀ ab, trigger.ability = some ab →
          ab.guid ≠ PURIFYING_BREW_id) →
        s'.purifyEvents = s.purifyEvents) := by
  cases htr : trigger.ability with
  | none =>
    refine ⟨_, removestagger_nonpurify_eq s ts npd amount trigger
      (by simp [htr]), rfl, ?_, fun _ => rfl⟩
    rintro ⟨ab, hab, -⟩
    simp at hab
  | some ab =>
    by_cases hg : ab.guid = PURIFYING_BREW_id
    · have hne := hguard ⟨ab, htr, hg⟩
      cases hprev : s.staggerEvents.getLast? with
      | none => exact absurd (List.getLast?_eq_none_iff.mp hprev) hne
      | some prev =>
        refine ⟨_, removestagger_purify_eq s ts npd amount trigger ab
          prev htr hg hprev, rfl, fun _ => ⟨_, rfl⟩, ?_⟩
        intro hng
        exact absurd hg (hng ab rfl)
    · refine ⟨_, removestagger_nonpurify_eq s ts npd amount trigger ?_,
        rfl, ?_, fun _ => rfl⟩
      · intro ab' hab'
        rw [htr] at hab'
        injection hab' with h
        subst h
        exact hg
      · rintro ⟨ab', hab', hg'⟩
        injection hab' with h
        subst h
        exact absurd hg' hg

/-- C6 witness: the amended statement on one recorded stagger gain and
the scenario's purifying removal. -/
theorem C6_remove_always_appends_removal_witness :
    ∃ s', on_removestagger demoState 200 5 15 purifyTrigger =
        Except.ok s' ∧
      s'.staggerEvents = demoState.staggerEvents ++
        [{ timestamp := 200, newPooledDamage := some 5,
           hitPoints := demoState.lastHp,
           maxHitPoints := demoState.lastMaxHp }] ∧
      ((∃ ab, purifyTrigger.ability = some ab ∧
          ab.guid = PURIFYING_BREW_id) →
        ∃ p, s'.purifyEvents = demoState.purifyEvents ++ [p]) ∧
      ((∀ ab, purifyTrigger.ability = some ab →
          ab.guid ≠ PURIFYING_BREW_id) →
        s'.purifyEvents = demoState.purifyEvents) :=
  C6_remove_always_appends_removal demoState 200 5 15 purifyTrigger
    (fun _ => by decide)

/-- Filtering a list on definedness of an optional field and on its
absence splits the list's length. -/
theorem length_filter_defined_partition {α β : Type} [DecidableEq β]
    (f : α → Option β) (l : List α) :
    (l.filter fun a => f a ≠ none).length +
      (l.filter fun a => f a = none).length = l.length := by
  induction l with
  | nil => rfl
  | cons a l ih =>
    cases h : f a <;> simp [List.filter_cons, h, ← ih] <;> omega

/-- C7: the projected health series is exactly the `hpEvents` with a
defined `hitPoints`, mapped in order to `{x: timestamp, y: hitPoints}`;
likewise the max-health series for `maxHitPoints`; and included points
plus events excluded for the missing field account for all of
`hpEvents`. -/
theorem C7_health_series_filtered (s : State) :
    (plotSeries s).hp = (s.hpEvents.filter fun e =>
        e.hitPoints ≠ none).map
      (fun e => { x := e.timestamp, y := e.hitPoints.getD 0 }) ∧
    (plotSeries s).maxHp = (s.hpEvents.filter fun e =>
        e.maxHitPoints ≠ none).map
      (fun e => { x := e.timestamp, y := e.maxHitPoints.getD 0 }) ∧
    (plotSeries s).hp.length +
      (s.hpEvents.filter fun e => e.hitPoints = none).length =
      s.hpEvents.length ∧
    (plotSeries s).maxHp.length +
      (s.hpEvents.filter fun e => e.maxHitPoints = none).length =
      s.hpEvents.length := by
  refine ⟨rfl, rfl, ?_, ?_⟩
  · simpa [plotSeries] using
      length_filter_defined_partition HpRecord.hitPoints s.hpEvents
  · simpa [plotSeries] using
      length_filter_defined_partition HpRecord.maxHitPoints s.hpEvents

/-- C8: the projector is pure and deterministic — invoking `plot`
leaves the accumulator state untouched, returns `plotSeries` of that
state, repeated invocation gives the same series, and running one and
the same event stream from two fresh accumulators projects to one and
the same result. -/
theorem C8_projector_pure_deterministic (s : State) (es : List Event) :
    (plot s).2 = s ∧
    (plot s).1 = plotSeries s ∧
    (plot ((plot s).2)).1 = (plot s).1 ∧
    Except.map (fun st => (plot st).1) (runEvents es initialState) =
      Except.map (fun st => (plot st).1) (runEvents es initialState) :=
  ⟨rfl, rfl, rfl, rfl⟩

/-- C9: a stream with no StaggerAdd and no StaggerRemove is accepted
without error (in particular any mix of Damage, Heal and Death events)
and projects an empty pool series and an empty purify-marker series. -/
theorem C9_no_stagger_empty_pool_series (es : List Event)
    (h : ∀ e ∈ es, isStaggerEvent e = false) :
    ∃ s, runEvents es initialState = Except.ok s ∧
      (plotSeries s).stagger = [] ∧ (plotSeries s).purifies = [] := by
  obtain ⟨s, hrun, hst, hpu⟩ := runEvents_no_stagger es initialState h
  refine ⟨s, hrun, ?_, ?_⟩
  · simp [plotSeries, hst, initialState]
  · simp [plotSeries, hpu, initialState]

/-- A stream with only Damage, Heal and Death events. -/
def hpOnlyStream : List Event :=
  [Event.damage 150 (some 80) (some 100),
   Event.heal 160 (some 90) none,
   Event.death 250]

/-- C9 witness: instantiated on a Damage/Heal/Death-only stream. -/
theorem C9_no_stagger_empty_pool_series_witness :
    ∃ s, runEvents hpOnlyStream initialState = Except.ok s ∧
      (plotSeries s).stagger = [] ∧ (plotSeries s).purifies = [] :=
  C9_no_stagger_empty_pool_series hpOnlyStream (by decide)

/-- A stream whose last health-series point (y = 0, from a zero
`hitPoints` snapshot) differs from the carried snapshot on the
following stagger record (5, from the earlier non-zero snapshot). -/
def divergenceStream : List Event :=
  [Event.damage 100 (some 5) none,
   Event.damage 110 (some 0) none,
   Event.staggerAdd 150 none]

/-- The accumulator state after feeding `divergenceStream`. -/
def divergenceFinal : State :=
  { hpEvents :=
      [{ timestamp := 100, hitPoints := some 5, maxHitPoints := none },
       { timestamp := 110, hitPoints := some 0, maxHitPoints := none }],
    staggerEvents :=
      [{ timestamp := 150, newPooledDamage := none,
         hitPoints := 5, maxHitPoints := 0 }],
    deathEvents := [],
    purifyEvents := [],
    lastHp := 5,
    lastMaxHp := 0 }

/-- C10: a Damage or Heal event carrying `hitPoints = 0` is admitted
into the projected health series with y = 0 (the defined-field filter
admits zero) while leaving `lastHp` unchanged; consequently a
subsequent stagger record's carried health snapshot can differ from
the most recent health-series point. -/
theorem C10_zero_hitPoints_plotted_not_tracked (s : State) (ts : Nat)
    (mhp : Option Nat) :
    ((on_toPlayer_damage s ts (some 0) mhp).lastHp = s.lastHp ∧
     (plotSeries (on_toPlayer_damage s ts (some 0) mhp)).hp =
       (plotSeries s).hp ++ [{ x := ts, y := 0 }]) ∧
    ((on_toPlayer_heal s ts (some 0) mhp).lastHp = s.lastHp ∧
     (plotSeries (on_toPlayer_heal s ts (some 0) mhp)).hp =
       (plotSeries s).hp ++ [{ x := ts, y := 0 }]) ∧
    (runEvents divergenceStream initialState =
        Except.ok divergenceFinal ∧
      ∃ r pt, divergenceFinal.staggerEvents.getLast? = some r ∧
        (plotSeries divergenceFinal).hp.getLast? = some pt ∧
        r.hitPoints ≠ pt.y) := by
  refine ⟨⟨?_, ?_⟩, ⟨?_, ?_⟩, rfl, ?_⟩
  · simp [on_toPlayer_damage, truthyUpdate]
  · simp [plotSeries, on_toPlayer_damage, List.filter_append,
      List.filter_cons]
  · simp [on_toPlayer_heal, truthyUpdate]
  · simp [plotSeries, on_toPlayer_heal, List.filter_append,
      List.filter_cons]
  · exact ⟨(⟨150, none, 5, 0⟩ : StaggerRecord),
      ({ x := 110, y := 0 } : HpPoint), rfl, rfl, by decide⟩

end StaggerPool
